import Mathlib

/-
Verification development for the annotation-parsing core of
borsboom/bcferries-schedules (src/scraper/src/annotations.rs).

The Rust code is shallowly embedded:
  * `HashSet<Date>` becomes `Finset MDate`;
  * `HashMap<K, V>` becomes a function `K → Option V`;
  * fallible code returns a result paired with the final state, mirroring
    the fact that the Rust code mutates `&mut self` before an error is
    propagated;
  * the `regex!` patterns are embedded through a small backtracking regex
    engine (`Rx`, `mtch`) with leftmost-first semantics, matching the
    semantics of the Rust `regex` crate on these patterns; every pattern
    from the source is transliterated into an `Rx` value next to a comment
    quoting the original pattern.
External primitives (`Date`, `Time`, `DateRange`, `DateRestriction`) are
declared in the repository outside the provided sources; they are modelled
from the spec, as marked on each of their doc comments.
-/

/-- Modelled from the spec: the external `Weekday` primitive (day of week). -/
inductive Weekday where
  | monday | tuesday | wednesday | thursday | friday | saturday | sunday
deriving DecidableEq, Repr

/-- Modelled from the spec: the external `Date` primitive (a concrete
calendar date, year included). -/
structure MDate where
  year : Nat
  month : Nat
  day : Nat
deriving DecidableEq, Repr

/-- Modelled from the spec: `date.weekday()` of the external `Date`
primitive, computed with Zeller's congruence. -/
def MDate.weekday (d : MDate) : Weekday :=
  let y := if d.month ≤ 2 then d.year - 1 else d.year
  let m := if d.month ≤ 2 then d.month + 12 else d.month
  let k := y % 100
  let j := y / 100
  let h := (d.day + 13 * (m + 1) / 5 + k + k / 4 + j / 4 + 5 * j) % 7
  match h with
  | 0 => .saturday
  | 1 => .sunday
  | 2 => .monday
  | 3 => .tuesday
  | 4 => .wednesday
  | 5 => .thursday
  | _ => .friday

/-- Modelled from the spec: the external `Time` primitive (hour 0-23 and
minute of a departure time). -/
structure MTime where
  hour : Nat
  minute : Nat
deriving DecidableEq, Repr

/-- Modelled from the spec: the external `DateRange` primitive, specified
only at its interface: `parse_date_within` resolves a bare date token
("Mon D", year inferred from the range) to `Ok(Some(date))` when it names a
day within the range, `Ok(None)` when it parses but falls outside the
range, and `Err` when the token cannot be parsed as a date at all. -/
structure DateRange where
  parseDateWithin : String → Except String (Option MDate)

/-- Whether a token parses as a date at all (in-range or not) under a
given `DateRange`. -/
def DateRange.tokenOk (dr : DateRange) (tok : String) : Bool :=
  match dr.parseDateWithin tok with
  | .ok _ => true
  | .error _ => false

/-- Modelled from the spec: the external `DateRestriction` tri-state owned
by the callers of the resolver: `All` (no restriction), `Only(set)`,
`Except(set)`. -/
inductive DateRestriction where
  | all
  | only (dates : Finset MDate)
  | except (dates : Finset MDate)
deriving DecidableEq

/-- Modelled from the spec: the "includes this date" test of
`DateRestriction`. -/
def DateRestriction.includes_date (r : DateRestriction) (d : MDate) : Bool :=
  match r with
  | .all => true
  | .only dates => decide (d ∈ dates)
  | .except dates => !decide (d ∈ dates)

/-- Modelled from the spec: the "never applies" test of `DateRestriction`.
`All` always applies and `Except(s)` applies off `s`, so the only value
that never applies is `Only` of the empty set. -/
def DateRestriction.is_never (r : DateRestriction) : Bool :=
  match r with
  | .all => false
  | .only dates => decide (dates = ∅)
  | .except _ => false

/-- A date `d` is carried by a restriction when it appears in the set of
an `Only` or an `Except` variant. -/
def DateRestriction.carries (r : DateRestriction) (d : MDate) : Prop :=
  match r with
  | .all => False
  | .only dates => d ∈ dates
  | .except dates => d ∈ dates

instance (r : DateRestriction) (d : MDate) : Decidable (r.carries d) := by
  cases r <;> simp [DateRestriction.carries] <;> infer_instance

/-- Structured model of the `anyhow` error values produced by
`Annotations::parse_single` / `Annotations::parse`.  Each constructor
corresponds to one `bail!`/`with_context` site in the source and carries
the same data that the source formats into the message. -/
inductive PErr where
  /-- "Failed to parse time: {time_text}" -/
  | timeParse (timeText : String)
  /-- "Expect \"Not Available\" or \"Only\" in: {other}" (star branch). -/
  | expectStar (kw : String)
  /-- "Expect \"Except\", \"Only\", or \"DG Sailing only\" in: {other}". -/
  | expectBlanket (kw : String)
  /-- "Failed to parse sailing date {date_text} in {annotation_text}"
  wrapping the inner `DateRange` parse error (star branch). -/
  | sailingDate (dateText : String) (normText : String) (inner : String)
  /-- "Failed to parse date {date_text} in {annotation_text}" wrapping the
  inner `DateRange` parse error (blanket branch). -/
  | dateParse (dateText : String) (normText : String) (inner : String)
  /-- "Unrecognized annotation text: {text}". -/
  | unrecognized (text : String)
  /-- "Failed to parse annotation: {text}" context added around any inner
  error by `parse_single`. -/
  | wrap (text : String) (inner : PErr)
deriving DecidableEq, Repr

section RegexEngine

/-- Abstract syntax of the fragment of the `regex` crate used by
`annotations.rs`: character classes, literals (with a case-insensitivity
flag for `(?i)` patterns), concatenation, ordered alternation, greedy
star/option, capture groups, and the `^`, `$`, `\b` assertions. -/
inductive Rx where
  | eps
  | cls (p : Char → Bool)
  | str (ci : Bool) (lit : String)
  | cat (a b : Rx)
  | alt (a b : Rx)
  | opt (a : Rx)
  | star (a : Rx)
  | grp (n : Nat) (a : Rx)
  | bol
  | eol
  | wb

/-- Captured-group environment: most recent binding of a group number
first, so a group inside `(...)*` keeps its last iteration, as in the
`regex` crate. -/
def Caps := List (Nat × List Char)

def capsGet (caps : Caps) (n : Nat) : List Char :=
  match caps.find? (fun p => p.1 == n) with
  | some p => p.2
  | none => []

def capsSet (caps : Caps) (n : Nat) (v : List Char) : Caps :=
  (n, v) :: caps

/-- Word character for `\b` (the `regex` crate's `\w`). -/
def wordChar (c : Char) : Bool :=
  c.isAlphanum || c == '_'

def wordOpt : Option Char → Bool
  | none => false
  | some c => wordChar c

/-- Case-insensitive-or-exact character comparison. -/
def chrEq (ci : Bool) (a b : Char) : Bool :=
  if ci then a.toLower == b.toLower else a == b

/-- Match a literal string, returning the updated previous-character
context and remaining input. -/
def litMatch (ci : Bool) : List Char → Option Char → List Char →
    Option (Option Char × List Char)
  | [], prev, s => some (prev, s)
  | _ :: _, _, [] => none
  | l :: ls, _, c :: cs => if chrEq ci l c then litMatch ci ls (some c) cs else none

/-- Backtracking matcher.  `mtch fuel r prev s caps` returns every way `r`
can match a prefix of `s` (given that `prev` is the character just before
`s`, for `^`/`\b`), in the leftmost-first preference order of the `regex`
crate: greedy quantifiers prefer longer matches and alternation prefers
its left branch.  `fuel` only bounds recursion depth; it is chosen large
enough (`engineFuel`) that it never cuts a search off. -/
def mtch : Nat → Rx → Option Char → List Char → Caps →
    List (Option Char × List Char × Caps)
  | 0, _, _, _, _ => []
  | _ + 1, .eps, prev, s, caps => [(prev, s, caps)]
  | _ + 1, .cls p, _, s, caps =>
    match s with
    | [] => []
    | c :: t => if p c then [(some c, t, caps)] else []
  | _ + 1, .str ci lit, prev, s, caps =>
    match litMatch ci lit.data prev s with
    | some (prev1, s1) => [(prev1, s1, caps)]
    | none => []
  | f + 1, .cat a b, prev, s, caps =>
    (mtch f a prev s caps).flatMap fun r1 => mtch f b r1.1 r1.2.1 r1.2.2
  | f + 1, .alt a b, prev, s, caps =>
    mtch f a prev s caps ++ mtch f b prev s caps
  | f + 1, .opt a, prev, s, caps =>
    mtch f a prev s caps ++ [(prev, s, caps)]
  | f + 1, .star a, prev, s, caps =>
    (((mtch f a prev s caps).filter fun r1 => r1.2.1.length < s.length).flatMap
      fun r1 => mtch f (.star a) r1.1 r1.2.1 r1.2.2) ++ [(prev, s, caps)]
  | f + 1, .grp n a, prev, s, caps =>
    (mtch f a prev s caps).map fun r1 =>
      (r1.1, r1.2.1, capsSet r1.2.2 n (s.take (s.length - r1.2.1.length)))
  | _ + 1, .bol, prev, s, caps =>
    if prev.isNone then [(prev, s, caps)] else []
  | _ + 1, .eol, prev, s, caps =>
    if s.isEmpty then [(prev, s, caps)] else []
  | _ + 1, .wb, prev, s, caps =>
    if wordOpt prev != wordOpt s.head? then [(prev, s, caps)] else []

def rxSize : Rx → Nat
  | .eps | .cls _ | .str _ _ | .bol | .eol | .wb => 1
  | .cat a b | .alt a b => rxSize a + rxSize b + 1
  | .opt a | .star a | .grp _ a => rxSize a + 1

/-- Recursion-depth bound that is always sufficient for `mtch`: along any
search path the matcher descends through at most `rxSize r` constructors
between star iterations, and every star iteration consumes at least one
input character. -/
def engineFuel (r : Rx) (s : List Char) : Nat :=
  (rxSize r + 2) * (s.length + 2)

/-- Leftmost search: the first start position (scanning left to right) at
which `r` matches, together with the match length and captures, using the
preferred (first) match at that position. -/
def searchRx (r : Rx) : Option Char → List Char → Option (Nat × Nat × Caps)
  | prev, s =>
    match mtch (engineFuel r s) r prev s [] with
    | r1 :: _ => some (0, s.length - r1.2.1.length, r1.2.2)
    | [] =>
      match s with
      | [] => none
      | c :: t =>
        match searchRx r (some c) t with
        | some (i, l, caps) => some (i + 1, l, caps)
        | none => none

/-- One item of a replacement template: a literal piece or a `$n` group
reference. -/
inductive TItem where
  | lit (s : String)
  | grp (n : Nat)

def instTmpl (tmpl : List TItem) (caps : Caps) : List Char :=
  tmpl.flatMap fun it =>
    match it with
    | .lit s => s.data
    | .grp n => capsGet caps n

/-- `Regex::is_match`. -/
def rxIsMatch (r : Rx) (s : String) : Bool :=
  (searchRx r none s.data).isSome

/-- `Regex::captures`, returning the requested group's text (empty when
the group did not participate), or `none` when the regex does not match. -/
def rxCaptures (r : Rx) (s : String) : Option Caps :=
  match searchRx r none s.data with
  | some (_, _, caps) => some caps
  | none => none

/-- `Regex::replace` (first match only). -/
def rxReplace (r : Rx) (tmpl : List TItem) (s : String) : String :=
  match searchRx r none s.data with
  | none => s
  | some (i, l, caps) =>
    ⟨s.data.take i ++ instTmpl tmpl caps ++ s.data.drop (i + l)⟩

def replaceAllAux : Nat → Rx → List TItem → Option Char → List Char → List Char
  | 0, _, _, _, s => s
  | f + 1, r, tmpl, prev, s =>
    match searchRx r prev s with
    | none => s
    | some (i, l, caps) =>
      let pre := s.take i
      let rep := instTmpl tmpl caps
      if l = 0 then
        match s.drop i with
        | [] => pre ++ rep
        | c :: rest => pre ++ rep ++ c :: replaceAllAux f r tmpl (some c) rest
      else
        let prev1 := match (s.take (i + l)).getLast? with
          | some c => some c
          | none => prev
        pre ++ rep ++ replaceAllAux f r tmpl prev1 (s.drop (i + l))

/-- `Regex::replace_all`: successive non-overlapping leftmost matches,
with the empty-match advance rule of the `regex` crate. -/
def rxReplaceAll (r : Rx) (tmpl : List TItem) (s : String) : String :=
  ⟨replaceAllAux (s.data.length + 1) r tmpl none s.data⟩

end RegexEngine

section SourcePatterns

/-- Concatenation of a list of regexes. -/
def rcat (l : List Rx) : Rx :=
  l.foldr Rx.cat Rx.eps

/-- Exact repetition, for bounded quantifiers such as {3} and {4}. -/
def rxN : Nat → Rx → Rx
  | 0, _ => .eps
  | n + 1, r => .cat r (rxN n r)

/-- The {1,2} quantifier (greedy). -/
def rx12 (r : Rx) : Rx :=
  .cat r (.opt r)

/-- The + quantifier (greedy). -/
def rxPlus (r : Rx) : Rx :=
  .cat r (.star r)

/-- [a-z] under (?i): an ASCII letter of either case. -/
def azci (c : Char) : Bool :=
  ('a' ≤ c && c ≤ 'z') || ('A' ≤ c && c ≤ 'Z')

/-- The . metacharacter (any character but a newline). -/
def dotC (c : Char) : Bool :=
  c != '\n'

/-- [AP] under (?i). -/
def apC (c : Char) : Bool :=
  c == 'A' || c == 'P' || c == 'a' || c == 'p'

/-- [!#*]. -/
def glyphC (c : Char) : Bool :=
  c == '!' || c == '#' || c == '*'

/-- [a-z]{3} followed by a space and \d{1,2}, under (?i): the "Mon D"
shape shared by several normalization rules. -/
def monDayRx : Rx :=
  rcat [rxN 3 (.cls azci), .str false " ", rx12 (.cls Char.isDigit)]

/-- Normalization rule 1: regex \.*$ replaced (first match) by the empty
string, stripping trailing periods. -/
def nrmRx1 : Rx :=
  .cat (.star (.cls fun c => c == '.')) .eol

/-- Normalization rule 2: regex (?i)\bApril\b replaced (all) by "Apr". -/
def nrmRx2 : Rx :=
  rcat [.wb, .str true "April", .wb]

/-- Normalization rule 3: regex ", \d{4}\b" replaced (all) by the empty
string, stripping a trailing four-digit year after a comma. -/
def nrmRx3 : Rx :=
  rcat [.str false ", ", rxN 4 (.cls Char.isDigit), .wb]

/-- Normalization rule 4: regex (?i)( & |, and | and ) replaced (all) by
", ". -/
def nrmRx4 : Rx :=
  .grp 1 (.alt (.str true " & ") (.alt (.str true ", and ") (.str true " and ")))

/-- Normalization rule 5: regex (?i)\b([a-z]{3})(\d{1,2})\b replaced (all)
by "$1 $2". -/
def nrmRx5 : Rx :=
  rcat [.wb, .grp 1 (rxN 3 (.cls azci)), .grp 2 (rx12 (.cls Char.isDigit)), .wb]

/-- Normalization rule 6: regex
(?i)\b([a-z]{3} \d{1,2}) ([a-z]{3} \d{1,2})\b replaced (all) by "$1, $2". -/
def nrmRx6 : Rx :=
  rcat [.wb, .grp 1 monDayRx, .str false " ", .grp 2 monDayRx, .wb]

/-- Normalization rule 7: regex
(?i)\b([a-z]{3}) (\d{1,2}),? (\d{1,2}),? (\d{1,2})\b replaced (all) by
"$1 $2, $1 $3, $1 $4". -/
def nrmRx7 : Rx :=
  rcat [.wb, .grp 1 (rxN 3 (.cls azci)), .str false " ",
    .grp 2 (rx12 (.cls Char.isDigit)), .opt (.str false ","), .str false " ",
    .grp 3 (rx12 (.cls Char.isDigit)), .opt (.str false ","), .str false " ",
    .grp 4 (rx12 (.cls Char.isDigit)), .wb]

/-- Normalization rule 8: regex (?i)\b([a-z]{3}) (\d{1,2}),? (\d{1,2})\b
replaced (all) by "$1 $2, $1 $3". -/
def nrmRx8 : Rx :=
  rcat [.wb, .grp 1 (rxN 3 (.cls azci)), .str false " ",
    .grp 2 (rx12 (.cls Char.isDigit)), .opt (.str false ","), .str false " ",
    .grp 3 (rx12 (.cls Char.isDigit)), .wb]

/-- Normalization rule 9: regex
(?i)^([a-z]{3} \d{1,2})(, [a-z]{3} \d{1,2})* only$ replaced (first) by
"Only $1$2". -/
def nrmRx9 : Rx :=
  rcat [.bol, .grp 1 monDayRx, .star (.grp 2 (.cat (.str true ", ") monDayRx)),
    .str true " only", .eol]

/-- Normalization rule 10: regex
(?i)^(DG Sailing only .*), no other passengers permitted$ replaced (first)
by "$1". -/
def nrmRx10 : Rx :=
  rcat [.bol, .grp 1 (.cat (.str true "DG Sailing only ") (.star (.cls dotC))),
    .str true ", no other passengers permitted", .eol]

/-- The fixed-order normalization pipeline of `parse_single` (the ten
`regex!(...).replace`/`replace_all` rewrites, in source order). -/
def normalizeText (text : String) : String :=
  let t1 := rxReplace nrmRx1 [] text
  let t2 := rxReplaceAll nrmRx2 [.lit "Apr"] t1
  let t3 := rxReplaceAll nrmRx3 [] t2
  let t4 := rxReplaceAll nrmRx4 [.lit ", "] t3
  let t5 := rxReplaceAll nrmRx5 [.grp 1, .lit " ", .grp 2] t4
  let t6 := rxReplaceAll nrmRx6 [.grp 1, .lit ", ", .grp 2] t5
  let t7 := rxReplaceAll nrmRx7 [.grp 1, .lit " ", .grp 2, .lit ", ",
    .grp 1, .lit " ", .grp 3, .lit ", ", .grp 1, .lit " ", .grp 4] t6
  let t8 := rxReplaceAll nrmRx8 [.grp 1, .lit " ", .grp 2, .lit ", ",
    .grp 1, .lit " ", .grp 3] t7
  let t9 := rxReplace nrmRx9 [.lit "Only ", .grp 1, .grp 2] t8
  rxReplace nrmRx10 [.grp 1] t9

/-- The time-qualified star pattern:
(?i)^\*(\d+:\d+ [AP]M) (Not Available|Only) on: (.*)\* -/
def starRx : Rx :=
  rcat [.bol, .str false "*",
    .grp 1 (rcat [rxPlus (.cls Char.isDigit), .str false ":",
      rxPlus (.cls Char.isDigit), .str false " ", .cls apC, .str true "M"]),
    .str false " ",
    .grp 2 (.alt (.str true "Not Available") (.str true "Only")),
    .str true " on: ", .grp 3 (.star (.cls dotC)), .str false "*"]

/-- The blanket restriction pattern:
(?i)^(Except|Not Available|Only|DG Sailing only)( on)?:? (.*) -/
def blanketRx : Rx :=
  rcat [.bol,
    .grp 1 (.alt (.str true "Except") (.alt (.str true "Not Available")
      (.alt (.str true "Only") (.str true "DG Sailing only")))),
    .opt (.grp 2 (.str true " on")), .opt (.str false ":"), .str false " ",
    .grp 3 (.star (.cls dotC))]

/-- The compound pattern tested by `Annotations::parse`:
(?i)^((Except|Not Available|Only)( on)?:? [a-z]* \d*) (! .*) -/
def compoundRx : Rx :=
  rcat [.bol,
    .grp 1 (rcat [
      .grp 2 (.alt (.str true "Except") (.alt (.str true "Not Available")
        (.str true "Only"))),
      .opt (.grp 3 (.str true " on")), .opt (.str false ":"), .str false " ",
      .star (.cls azci), .str false " ", .star (.cls Char.isDigit)]),
    .str false " ",
    .grp 4 (.cat (.str false "! ") (.star (.cls dotC)))]

/-- The leading-glyph pattern ([!#*]*)\s* of the fallback branch, replaced
(first) by "$1 ". -/
def glyphRx : Rx :=
  .cat (.grp 1 (.star (.cls glyphC))) (.star (.cls Char.isWhitespace))

/-- The trailing-punctuation pattern [\.,]$ of the fallback branch,
replaced (first) by the empty string. -/
def punctRx : Rx :=
  .cat (.cls fun c => c == '.' || c == ',') .eol

/-- The DG-unconditional pattern of the fallback branch (case-sensitive;
alternation binds loosest, so ^ anchors only the first alternative and $
only the last):
^(Dangerous goods only)|(No passengers permitted - DG Sailing only)|(No passengers permitted - only sails on .*)$ -/
def dgRx : Rx :=
  .alt (.cat .bol (.grp 1 (.str false "Dangerous goods only")))
    (.alt (.grp 2 (.str false "No passengers permitted - DG Sailing only"))
      (.cat (.grp 3 (.cat (.str false "No passengers permitted - only sails on ")
        (.star (.cls dotC)))) .eol))

/-- Groups 1-3 of the star pattern (time text, verb, date list). -/
def starCaps (s : String) : Option (String × String × String) :=
  match rxCaptures starRx s with
  | some caps => some (⟨capsGet caps 1⟩, ⟨capsGet caps 2⟩, ⟨capsGet caps 3⟩)
  | none => none

/-- Groups 1 and 3 of the blanket pattern (keyword, date list). -/
def blanketCaps (s : String) : Option (String × String) :=
  match rxCaptures blanketRx s with
  | some caps => some (⟨capsGet caps 1⟩, ⟨capsGet caps 3⟩)
  | none => none

/-- Groups 1 and 4 of the compound pattern (restriction clause, embedded
note including its leading "! "). -/
def compoundCapsRaw (s : String) : Option (String × String) :=
  match rxCaptures compoundRx s with
  | some caps => some (⟨capsGet caps 1⟩, ⟨capsGet caps 4⟩)
  | none => none

end SourcePatterns

section Splitting

/-- `str::split` on a set of delimiter characters (empty pieces kept). -/
def splitChars (delims : List Char) : List Char → List (List Char)
  | [] => [[]]
  | c :: rest =>
    let r := splitChars delims rest
    if c ∈ delims then [] :: r
    else
      match r with
      | [] => [[c]]
      | p :: ps => (c :: p) :: ps

/-- `str::trim`. -/
def trimChars (cs : List Char) : List Char :=
  ((cs.dropWhile Char.isWhitespace).reverse.dropWhile Char.isWhitespace).reverse

/-- `text.split(delims).map(|s| s.trim())`. -/
def splitTrim (s : String) (delims : List Char) : List String :=
  (splitChars delims s.data).map fun cs => ⟨trimChars cs⟩

end Splitting

/-- Modelled from the spec: `Time::parse` with format description
"[hour repr:12 padding:none]:[minute] [period case:lower
case_sensitive:false]" of the external `Time` primitive: a one- or
two-digit hour 1-12, a colon, a two-digit minute, a space and a
case-insensitive am/pm marker, converted to a 24-hour time. -/
def MTime.parse12 (s : String) : Option MTime :=
  let cs := s.data
  let hd := cs.takeWhile Char.isDigit
  let rest := cs.dropWhile Char.isDigit
  if hd.length = 0 || 2 < hd.length then none
  else
    let h := hd.foldl (fun a c => a * 10 + (c.toNat - '0'.toNat)) 0
    if h = 0 || 12 < h then none
    else
      match rest with
      | ':' :: r2 =>
        let md := r2.takeWhile Char.isDigit
        let r3 := r2.dropWhile Char.isDigit
        if md.length ≠ 2 then none
        else
          let m := md.foldl (fun a c => a * 10 + (c.toNat - '0'.toNat)) 0
          if 59 < m then none
          else
            match r3 with
            | [' ', p1, p2] =>
              if p2.toLower ≠ 'm' then none
              else if p1.toLower = 'a' then some ⟨h % 12, m⟩
              else if p1.toLower = 'p' then some ⟨h % 12 + 12, m⟩
              else none
            | _ => none
      | _ => none

section AnnotationModel

/-- `AnnotationDates`: the pair of "only" / "except" date sets. -/
structure AnnotationDates where
  only : Finset MDate
  except : Finset MDate
deriving DecidableEq

namespace AnnotationDates

/-- `AnnotationDates::new`. -/
def new : AnnotationDates :=
  ⟨∅, ∅⟩

/-- `AnnotationDates::is_always`. -/
def is_always (ad : AnnotationDates) : Bool :=
  decide (ad.only = ∅) && decide (ad.except = ∅)

/-- `AnnotationDates::extend` (set union on both sides). -/
def extend (ad other : AnnotationDates) : AnnotationDates :=
  ⟨ad.only ∪ other.only, ad.except ∪ other.except⟩

/-- `AnnotationDates::into_date_restriction`.  The source loop removes
every date of `except ∩ only` from both sets, which is exactly the set
difference by that intersection; it then prefers `Only`, then `Except`,
then `All`. -/
def into_date_restriction (ad : AnnotationDates) : DateRestriction :=
  let common := ad.except ∩ ad.only
  let onlyR := ad.only \ common
  let exceptR := ad.except \ common
  if onlyR ≠ ∅ then .only onlyR
  else if exceptR ≠ ∅ then .except exceptR
  else .all

/-- `AnnotationDates::into_date_restriction_by` (`retain` on both sets,
then canonicalize). -/
def into_date_restriction_by (ad : AnnotationDates) (p : MDate → Bool) :
    DateRestriction :=
  (AnnotationDates.mk (ad.only.filter fun d => p d = true)
    (ad.except.filter fun d => p d = true)).into_date_restriction

/-- `AnnotationDates::into_date_restriction_by_weekday`. -/
def into_date_restriction_by_weekday (ad : AnnotationDates) (w : Weekday) :
    DateRestriction :=
  ad.into_date_restriction_by fun d => decide (d.weekday = w)

/-- `AnnotationDates::into_date_restriction_by_weekday_and_date_restriction`. -/
def into_date_restriction_by_weekday_and_date_restriction
    (ad : AnnotationDates) (w : Weekday) (base : DateRestriction) :
    DateRestriction :=
  ad.into_date_restriction_by fun d =>
    decide (d.weekday = w) && base.includes_date d

/-- `AnnotationDates::map_to_date_restrictions_by_weekday`, with the
iterator of key/`AnnotationDates` pairs modelled as a list:
`filter_map` keeping only pairs whose restriction is not "never". -/
def map_to_date_restrictions_by_weekday {K : Type} (l : List (K × AnnotationDates))
    (w : Weekday) (base : DateRestriction) : List (K × DateRestriction) :=
  l.filterMap fun kad =>
    let dr := kad.2.into_date_restriction_by_weekday_and_date_restriction w base
    if dr.is_never then none else some (kad.1, dr)

end AnnotationDates

/-- `AnnotationNotes`: the note registry, a map from note text to its own
`AnnotationDates`. -/
structure AnnotationNotes where
  map : String → Option AnnotationDates

namespace AnnotationNotes

/-- `AnnotationNotes::new`. -/
def new : AnnotationNotes :=
  ⟨fun _ => none⟩

/-- `AnnotationNotes::extend`: `HashMap::extend` inserts every entry of
`other`, replacing an existing entry with the same key. -/
def extend (a other : AnnotationNotes) : AnnotationNotes :=
  ⟨fun k =>
    match other.map k with
    | some v => some v
    | none => a.map k⟩

end AnnotationNotes

/-- `text_date_restriction`: `notes.map.entry(text).or_insert_with(AnnotationDates::new)`.
The mutable reference it returns is not written through at any call site in
`annotations.rs`, so the state effect is exactly "insert an empty
`AnnotationDates` when the key is absent". -/
def text_date_restriction (notes : AnnotationNotes) (text : String) :
    AnnotationNotes :=
  ⟨fun k =>
    if k = text then some ((notes.map text).getD AnnotationDates.new)
    else notes.map k⟩

/-- The per-row `Annotations` aggregate. -/
structure Annotations where
  dg_dates : AnnotationDates
  is_dg_only : Bool
  star_dates : AnnotationDates
  star_dates_by_time : MTime → Option AnnotationDates
  all_dates : AnnotationDates
  all_notes : AnnotationNotes

/-- `Annotations::new`. -/
def Annotations.new : Annotations :=
  ⟨AnnotationDates.new, false, AnnotationDates.new, fun _ => none,
    AnnotationDates.new, AnnotationNotes.new⟩

/-- Which date-list caller is running, selecting the error context text
("Failed to parse sailing date ..." in the star branch, "Failed to parse
date ..." in the blanket branch). -/
inductive DBranch where
  | star
  | blanket
deriving DecidableEq

def dateErr (b : DBranch) (tok normText inner : String) : PErr :=
  match b with
  | .star => .sailingDate tok normText inner
  | .blanket => .dateParse tok normText inner

/-- The date-list loop shared by the star and blanket branches: resolve
each token against the range, inserting in-range dates into the set,
dropping (with a warning, which the model ignores) out-of-range tokens,
and stopping with an error at the first token that does not parse as a
date at all.  Mirrors the `for date_text in ...` loops of `parse_single`;
on error the inserts made so far are kept, as the Rust code mutates the
set in place. -/
def resolveTokens (dr : DateRange) (b : DBranch) (normText : String) :
    List String → Finset MDate → Finset MDate × Option PErr
  | [], s => (s, none)
  | tok :: rest, s =>
    match dr.parseDateWithin tok with
    | .error e => (s, some (dateErr b tok normText e))
    | .ok none => resolveTokens dr b normText rest s
    | .ok (some d) => resolveTokens dr b normText rest (insert d s)

namespace Annotations

/-- The star branch of `parse_single` (time-qualified pattern matched):
parse the time, create the `star_dates_by_time` entry
(`entry(time).or_insert_with(AnnotationDates::new)` — note that the entry
is created even when the verb match then bails), pick the `except`/`only`
side by the captured verb, and run the date-list loop (split on ','). -/
def starBranch (a : Annotations) (dr : DateRange)
    (normText timeText verb dl : String) : Annotations × Option PErr :=
  match MTime.parse12 timeText with
  | none => (a, some (.timeParse timeText))
  | some time =>
    let dates := (a.star_dates_by_time time).getD AnnotationDates.new
    let toks := splitTrim dl [',']
    if verb = "Not Available" then
      let r := resolveTokens dr .star normText toks dates.except
      ({a with star_dates_by_time := fun t =>
          if t = time then some ⟨dates.only, r.1⟩ else a.star_dates_by_time t},
        r.2)
    else if verb = "Only" then
      let r := resolveTokens dr .star normText toks dates.only
      ({a with star_dates_by_time := fun t =>
          if t = time then some ⟨r.1, dates.except⟩ else a.star_dates_by_time t},
        r.2)
    else
      ({a with star_dates_by_time := fun t =>
          if t = time then some dates else a.star_dates_by_time t},
        some (.expectStar verb))

/-- The blanket branch of `parse_single` (blanket pattern matched): pick
the target set by the captured keyword (exact-case match, bailing on
anything else) and run the date-list loop (split on ',' and '&'). -/
def blanketBranch (a : Annotations) (dr : DateRange)
    (normText kw dl : String) : Annotations × Option PErr :=
  let toks := splitTrim dl [',', '&']
  if kw = "Except" ∨ kw = "Not Available" then
    let r := resolveTokens dr .blanket normText toks a.all_dates.except
    ({a with all_dates := ⟨a.all_dates.only, r.1⟩}, r.2)
  else if kw = "Only" then
    let r := resolveTokens dr .blanket normText toks a.all_dates.only
    ({a with all_dates := ⟨r.1, a.all_dates.except⟩}, r.2)
  else if kw = "DG Sailing only" then
    let r := resolveTokens dr .blanket normText toks a.dg_dates.only
    ({a with dg_dates := ⟨r.1, a.dg_dates.except⟩}, r.2)
  else
    (a, some (.expectBlanket kw))

end Annotations

/-- The text the fallback branch of `parse_single` actually matches on:
the glyph rewrite `([!#*]*)\s*` → "$1 " (first match), then stripping one
trailing '.' or ',', then `str::trim`. -/
def fallbackText (normText : String) : String :=
  let t1 := rxReplace glyphRx [.grp 1, .lit " "] normText
  let t2 := rxReplace punctRx [] t1
  ⟨trimChars t2.data⟩

namespace Annotations

/-- The fallback branch of `parse_single` (neither pattern matched):
DG-unconditional phrasings set `is_dg_only`; the closed set of known notes
is recorded in the registry; the no-op phrase is ignored; anything else is
the "Unrecognized annotation text" failure. -/
def fallbackBranch (a : Annotations) (normText : String) :
    Annotations × Option PErr :=
  let t := fallbackText normText
  if rxIsMatch dgRx t then ({a with is_dg_only := true}, none)
  else if t = "! Saturna-bound vehicles arriving at the booth at least 15 minutes prior to sailing time are offered priority on this sailing" then
    ({a with all_notes := text_date_restriction a.all_notes "Saturna-bound vehicles arriving at the booth at least 15 minutes prior to sailing time are offered priority on this sailing"}, none)
  else if t = "Foot passengers only" then
    ({a with all_notes := text_date_restriction a.all_notes "Foot passengers only"}, none)
  else if t = "Note: This sailing departs just after midnight" then
    ({a with all_notes := text_date_restriction a.all_notes "This sailing departs just after midnight"}, none)
  else if t = "This sailing departs just before midnight" then
    ({a with all_notes := text_date_restriction a.all_notes "This sailing departs just before midnight"}, none)
  else if t = "No sailings available on this route for these dates" then
    (a, none)
  else
    (a, some (.unrecognized t))

/-- `Annotations::parse_single`: normalize, classify (star pattern first,
then blanket pattern, then fallback), and wrap any error with the
"Failed to parse annotation" context carrying the original text. -/
def parse_single (a : Annotations) (dr : DateRange) (text : String) :
    Annotations × Option PErr :=
  let n := normalizeText text
  let r :=
    match starCaps n with
    | some (timeText, verb, dl) => a.starBranch dr n timeText verb dl
    | none =>
      match blanketCaps n with
      | some (kw, dl) => a.blanketBranch dr n kw dl
      | none => a.fallbackBranch n
  (r.1, r.2.map (.wrap text))

end Annotations

/-- The compound test of `Annotations::parse`: the compound pattern's
groups 1 and 4.  The guard restates a fact of every successful match (the
two pieces together omit at least the separating space matched between
them), making the recursion in `parse` visibly bounded by the string
length. -/
def splitCompound (text : String) : Option (String × String) :=
  match compoundCapsRaw text with
  | some (c1, c4) =>
    if c1.length + c4.length < text.length then some (c1, c4) else none
  | none => none

namespace Annotations

/-- One annotation string of `Annotations::parse`: if the compound pattern
matches, recursively parse the two extracted pieces (each piece is
strictly shorter, so fuel `text.length + 1` is never exhausted); otherwise
hand the string to `parse_single`. -/
def parseOne : DateRange → Nat → String → Annotations → Annotations × Option PErr
  | dr, 0, text, a => a.parse_single dr text
  | dr, f + 1, text, a =>
    match splitCompound text with
    | some (c1, c4) =>
      let r1 := parseOne dr f c1 a
      match r1.2 with
      | some e => (r1.1, some e)
      | none => parseOne dr f c4 r1.1
    | none => a.parse_single dr text

/-- `Annotations::parse` over the ordered list of annotation strings for
one row, stopping at the first failing string (whose mutations so far are
kept). -/
def parse : Annotations → DateRange → List String → Annotations × Option PErr
  | a, _, [] => (a, none)
  | a, dr, text :: rest =>
    let r1 := parseOne dr (text.length + 1) text a
    match r1.2 with
    | some e => (r1.1, some e)
    | none => parse r1.1 dr rest

end Annotations

end AnnotationModel

section SharedFixtures

/-- A concrete `DateRange` covering July 2021, resolving the two tokens
the scenario inputs use, treating an adjacent-period token as out of
range, and failing on anything else. -/
def julyRange2021 : DateRange :=
  ⟨fun tok =>
    if tok = "Jul 1" then .ok (some ⟨2021, 7, 1⟩)
    else if tok = "Jul 4" then .ok (some ⟨2021, 7, 4⟩)
    else if tok = "Aug 9" then .ok none
    else .error "unrecognized date token"⟩

end SharedFixtures

section DateSetLemmas

/-- The resolver never produces the one "never applies" restriction,
`Only` of the empty set: when the cancelled `only` set is non-empty the
result is that non-empty `Only`, and otherwise the result is an `Except`
or `All`. -/
theorem into_date_restriction_is_never_false (ad : AnnotationDates) :
    ad.into_date_restriction.is_never = false := by
  simp only [AnnotationDates.into_date_restriction]
  split_ifs with h1 h2
  · simp only [DateRestriction.is_never]
    exact decide_eq_false h1
  · rfl
  · rfl

end DateSetLemmas

section ClaimC2

/-- C2: for every `AnnotationDates` value and every date `d` present in
both its `only` set and its `except` set, `into_date_restriction` removes
`d` from both sets before choosing a variant, so the resulting
`DateRestriction` contains `d` neither in an `Only` set nor in an `Except`
set. -/
theorem into_date_restriction_drops_common (ad : AnnotationDates) (d : MDate)
    (h1 : d ∈ ad.only) (h2 : d ∈ ad.except) :
    ¬ ad.into_date_restriction.carries d := by
  simp only [AnnotationDates.into_date_restriction]
  split_ifs with hA hB
  · simp [DateRestriction.carries, Finset.mem_sdiff, Finset.mem_inter, h1, h2]
  · simp [DateRestriction.carries, Finset.mem_sdiff, Finset.mem_inter, h1, h2]
  · simp [DateRestriction.carries]

/-- Witness for C2 at a concrete input: a date in both sets of a concrete
`AnnotationDates` is carried by neither side of the result. -/
theorem into_date_restriction_drops_common_witness :
    ¬ (AnnotationDates.mk {⟨2021, 7, 1⟩} {⟨2021, 7, 1⟩}).into_date_restriction.carries
      ⟨2021, 7, 1⟩ :=
  into_date_restriction_drops_common _ _ (by decide) (by decide)

end ClaimC2

section ClaimC5

/-- C5: `into_date_restriction` of an `AnnotationDates` with both sets
empty (`is_always`) yields `All`, and for every `AnnotationDates`
whatsoever it never yields an `Only` or `Except` variant carrying an empty
set. -/
theorem into_date_restriction_canonical (ad : AnnotationDates) :
    (ad.is_always = true → ad.into_date_restriction = .all) ∧
    ad.into_date_restriction ≠ .only ∅ ∧
    ad.into_date_restriction ≠ .except ∅ := by
  refine ⟨fun h => ?_, ?_, ?_⟩
  · simp only [AnnotationDates.is_always, Bool.and_eq_true, decide_eq_true_eq] at h
    simp [AnnotationDates.into_date_restriction, h.1, h.2]
  · simp only [AnnotationDates.into_date_restriction]
    split_ifs with h1 h2 <;> simp_all
  · simp only [AnnotationDates.into_date_restriction]
    split_ifs with h1 h2 <;> simp_all

/-- Witness for C5 at a concrete input: both sets empty resolves to
`All`. -/
theorem into_date_restriction_canonical_witness :
    (AnnotationDates.mk ∅ ∅).into_date_restriction = .all :=
  (into_date_restriction_canonical ⟨∅, ∅⟩).1 (by decide)

end ClaimC5

section ClaimC10

/-- C10: on an `AnnotationDates` whose `only` and `except` sets are both
still non-empty (and hence disjoint) after cross-cancellation,
`into_date_restriction` returns `Only` of the cancelled `only` set, and
the remaining `except` dates are silently discarded: they do not appear in
the result. -/
theorem into_date_restriction_only_wins (ad : AnnotationDates)
    (h1 : (ad.only \ ad.except).Nonempty) (_h2 : (ad.except \ ad.only).Nonempty) :
    ad.into_date_restriction = .only (ad.only \ ad.except) := by
  have hcommon : ad.only \ (ad.except ∩ ad.only) = ad.only \ ad.except := by
    ext d
    simp only [Finset.mem_sdiff, Finset.mem_inter]
    tauto
  simp only [AnnotationDates.into_date_restriction, hcommon]
  rw [if_pos]
  intro h
  rw [h] at h1
  exact Finset.not_nonempty_empty h1

/-- Witness for C10 at a concrete input with disjoint non-empty sets. -/
theorem into_date_restriction_only_wins_witness :
    (AnnotationDates.mk {⟨2021, 7, 1⟩} {⟨2021, 7, 4⟩}).into_date_restriction
      = .only {⟨2021, 7, 1⟩} := by
  rw [into_date_restriction_only_wins _ (by decide) (by decide)]
  decide

end ClaimC10

section ClaimC3

/-- C3 counterexample: a note whose `AnnotationDates` has a non-empty date
set (here `only = {Thu Jul 1 2021}`) and whose sets both become empty
after filtering by an unmatched weekday (Friday) is NOT absent from the
output of `map_to_date_restrictions_by_weekday`: it is kept, mapped to
`All`. -/
theorem map_to_date_restrictions_keeps_emptied_note :
    (MDate.mk 2021 7 1).weekday ≠ .friday ∧
    AnnotationDates.map_to_date_restrictions_by_weekday
      [("n", AnnotationDates.mk {⟨2021, 7, 1⟩} ∅)] .friday .all
      = [("n", .all)] := by
  constructor
  · decide
  · decide

/-- C3 amended: `map_to_date_restrictions_by_weekday` never drops an
entry at all — its `is_never` filter can only reject `Only ∅`, which
`into_date_restriction` never produces — so the output maps every note of
the registry, and a note whose date set becomes empty after weekday+base
filtering appears mapped to `All`. -/
theorem map_to_date_restrictions_drops_nothing {K : Type}
    (l : List (K × AnnotationDates)) (w : Weekday) (base : DateRestriction) :
    AnnotationDates.map_to_date_restrictions_by_weekday l w base
      = l.map fun kad =>
          (kad.1, kad.2.into_date_restriction_by_weekday_and_date_restriction w base) := by
  induction l with
  | nil => rfl
  | cons kad rest ih =>
    simp only [AnnotationDates.map_to_date_restrictions_by_weekday, List.filterMap_cons] at *
    rw [AnnotationDates.into_date_restriction_by_weekday_and_date_restriction,
      AnnotationDates.into_date_restriction_by, into_date_restriction_is_never_false]
    simp only [List.map_cons, ih]
    rfl

end ClaimC3

section ClaimC9

/-- Concrete registry holding the note "n" scoped to only Jul 1 2021. -/
def notesRegA : AnnotationNotes :=
  ⟨fun k => if k = "n" then some ⟨{⟨2021, 7, 1⟩}, ∅⟩ else none⟩

/-- Concrete registry holding the note "n" scoped to only Jul 4 2021. -/
def notesRegB : AnnotationNotes :=
  ⟨fun k => if k = "n" then some ⟨{⟨2021, 7, 4⟩}, ∅⟩ else none⟩

/-- C9 counterexample: combining two registries that both hold an entry
for the same note text via `AnnotationNotes::extend` does not merge the
two entries' date sets by union — the second registry's entry replaces the
first's, discarding its dates. -/
theorem notes_extend_discards_first :
    (notesRegA.extend notesRegB).map "n" = some ⟨{⟨2021, 7, 4⟩}, ∅⟩ ∧
    (notesRegA.extend notesRegB).map "n"
      ≠ some ((AnnotationDates.mk {⟨2021, 7, 1⟩} ∅).extend ⟨{⟨2021, 7, 4⟩}, ∅⟩) := by
  constructor
  · decide
  · decide

/-- C9 amended: neither combination path duplicates entries, but only the
row-parse insertion path preserves existing dates: `AnnotationNotes::extend`
replaces a same-text entry with the other registry's date sets (discarding
the first registry's dates), while `text_date_restriction` (entry
insertion during a row's parse) keeps an existing entry's date sets
untouched. -/
theorem notes_combine_semantics :
    (∀ a b : AnnotationNotes, ∀ k : String, ∀ v w : AnnotationDates,
      a.map k = some v → b.map k = some w → (a.extend b).map k = some w) ∧
    (∀ notes : AnnotationNotes, ∀ k : String, ∀ v : AnnotationDates,
      notes.map k = some v → (text_date_restriction notes k).map k = some v) := by
  constructor
  · intro a b k v w _ h2
    simp [AnnotationNotes.extend, h2]
  · intro notes k v h
    simp [text_date_restriction, h]

/-- Witness for C9's amended statement at concrete registries. -/
theorem notes_combine_semantics_witness :
    (notesRegA.extend notesRegB).map "n" = some ⟨{⟨2021, 7, 4⟩}, ∅⟩ :=
  notes_combine_semantics.1 notesRegA notesRegB "n" ⟨{⟨2021, 7, 1⟩}, ∅⟩
    ⟨{⟨2021, 7, 4⟩}, ∅⟩ (by decide) (by decide)

end ClaimC9

section TokenLemmas

/-- The set of dates that a token list resolves to within range: exactly
the tokens whose `parse_date_within` answer is `Ok(Some(date))`. -/
def goodDates (dr : DateRange) : List String → Finset MDate
  | [] => ∅
  | tok :: rest =>
    match dr.parseDateWithin tok with
    | .ok (some d) => insert d (goodDates dr rest)
    | _ => goodDates dr rest

/-- When every token parses as a date, the date-list loop succeeds and
adds exactly the in-range dates to the accumulating set. -/
theorem resolveTokens_all_ok (dr : DateRange) (b : DBranch) (n : String) :
    ∀ (toks : List String) (s : Finset MDate),
      (∀ tok ∈ toks, dr.tokenOk tok = true) →
      resolveTokens dr b n toks s = (s ∪ goodDates dr toks, none) := by
  intro toks
  induction toks with
  | nil => intro s _; simp [resolveTokens, goodDates]
  | cons tok rest ih =>
    intro s h
    have htok := h tok (by simp)
    have hrest : ∀ t ∈ rest, dr.tokenOk t = true := fun t ht => h t (by simp [ht])
    simp only [resolveTokens, goodDates]
    cases hp : dr.parseDateWithin tok with
    | error e =>
      rw [DateRange.tokenOk, hp] at htok
      exact absurd htok (by simp)
    | ok o =>
      cases o with
      | none => simp [ih s hrest]
      | some d =>
        simp [ih (insert d s) hrest, Finset.insert_union, Finset.union_insert]

/-- When some token fails to parse as a date, the date-list loop reports
an error. -/
theorem resolveTokens_has_err (dr : DateRange) (b : DBranch) (n : String) :
    ∀ (toks : List String) (s : Finset MDate),
      (∃ tok ∈ toks, dr.tokenOk tok = false) →
      (resolveTokens dr b n toks s).2 ≠ none := by
  intro toks
  induction toks with
  | nil => intro s h; exact absurd h (by simp)
  | cons tok rest ih =>
    intro s h
    simp only [resolveTokens]
    cases hp : dr.parseDateWithin tok with
    | error e => simp
    | ok o =>
      have hrest : ∃ t ∈ rest, dr.tokenOk t = false := by
        obtain ⟨t, ht, hfail⟩ := h
        rcases List.mem_cons.mp ht with rfl | htr
        · rw [DateRange.tokenOk, hp] at hfail
          exact absurd hfail (by simp)
        · exact ⟨t, htr, hfail⟩
      cases o with
      | none => exact ih s hrest
      | some d => exact ih (insert d s) hrest

/-- Errors coming out of the date-list loop are date-parse errors. -/
theorem resolveTokens_err_shape (dr : DateRange) (b : DBranch) (n : String) :
    ∀ (toks : List String) (s : Finset MDate) (e : PErr),
      (resolveTokens dr b n toks s).2 = some e →
      ∃ tok inner, e = dateErr b tok n inner := by
  intro toks
  induction toks with
  | nil => intro s e h; exact absurd h (by simp [resolveTokens])
  | cons tok rest ih =>
    intro s e h
    simp only [resolveTokens] at h
    cases hp : dr.parseDateWithin tok with
    | error msg =>
      rw [hp] at h
      simp only [Option.some_inj] at h
      exact ⟨tok, msg, h.symm⟩
    | ok o =>
      rw [hp] at h
      cases o with
      | none => exact ih s e h
      | some d => exact ih (insert d s) e h

end TokenLemmas

section ClaimC1

/-- C1: for every annotation string whose normalized text matches the
blanket restriction pattern (and not the star pattern) with captured
keyword exactly "Except" or "Not Available", and every `DateRange`: if
every comma/ampersand-separated date token parses as a date,
`parse_single` succeeds and inserts exactly the in-range dates into
`all_dates.except`, leaving `all_dates.only` and every other component of
the state unchanged (so out-of-range tokens land in no set); and if some
token does not parse as a date at all, `parse_single` returns an error. -/
theorem parse_single_blanket_except (dr : DateRange) (s : String)
    (a : Annotations) (kw dl : String)
    (h1 : starCaps (normalizeText s) = none)
    (h2 : blanketCaps (normalizeText s) = some (kw, dl))
    (h3 : kw = "Except" ∨ kw = "Not Available") :
    ((∀ tok ∈ splitTrim dl [',', '&'], dr.tokenOk tok = true) →
      (a.parse_single dr s).2 = none ∧
      (a.parse_single dr s).1.all_dates.except
        = a.all_dates.except ∪ goodDates dr (splitTrim dl [',', '&']) ∧
      (a.parse_single dr s).1.all_dates.only = a.all_dates.only ∧
      (a.parse_single dr s).1.dg_dates = a.dg_dates ∧
      (a.parse_single dr s).1.star_dates = a.star_dates ∧
      (a.parse_single dr s).1.star_dates_by_time = a.star_dates_by_time ∧
      (a.parse_single dr s).1.is_dg_only = a.is_dg_only ∧
      (a.parse_single dr s).1.all_notes = a.all_notes) ∧
    ((∃ tok ∈ splitTrim dl [',', '&'], dr.tokenOk tok = false) →
      (a.parse_single dr s).2 ≠ none) := by
  have hsel : (kw = "Except" ∨ kw = "Not Available") = True := by
    simp [h3]
  simp only [Annotations.parse_single, h1, h2, Annotations.blanketBranch, hsel,
    if_true]
  constructor
  · intro hok
    rw [resolveTokens_all_ok dr .blanket (normalizeText s) _ _ hok]
    simp
  · intro hex
    have := resolveTokens_has_err dr .blanket (normalizeText s)
      (splitTrim dl [',', '&']) a.all_dates.except hex
    cases hr : (resolveTokens dr .blanket (normalizeText s)
        (splitTrim dl [',', '&']) a.all_dates.except).2 with
    | none => exact absurd hr this
    | some e => simp [hr]

/-- Witness for C1: the spec scenario "Except: Jul 1, Jul 4" against a
July 2021 range yields `all_dates.except = {Jul 1 2021, Jul 4 2021}` with
`all_dates.only` empty and no error. -/
theorem parse_single_blanket_except_witness :
    (Annotations.new.parse_single julyRange2021 "Except: Jul 1, Jul 4").2 = none ∧
    (Annotations.new.parse_single julyRange2021 "Except: Jul 1, Jul 4").1.all_dates.except
      = {⟨2021, 7, 1⟩, ⟨2021, 7, 4⟩} ∧
    (Annotations.new.parse_single julyRange2021 "Except: Jul 1, Jul 4").1.all_dates.only
      = ∅ := by
  have h := (parse_single_blanket_except julyRange2021 "Except: Jul 1, Jul 4"
    Annotations.new "Except" "Jul 1, Jul 4" (by decide) (by decide)
    (Or.inl rfl)).1 (by decide)
  refine ⟨h.1, ?_, ?_⟩
  · rw [h.2.1]
    decide
  · rw [h.2.2.1]
    rfl

end ClaimC1

section ClaimC7

/-- C7: an annotation string that (after normalization) matches neither
the star pattern nor the blanket pattern, whose glyph/punctuation-handled
remainder matches no DG-unconditional phrasing and none of the fixed
recognized phrases (the no-op phrase included), makes `parse_single` fail
with an error naming that exact remaining text, and leaves the state
untouched. -/
theorem parse_single_unrecognized (dr : DateRange) (s : String) (a : Annotations)
    (h1 : starCaps (normalizeText s) = none)
    (h2 : blanketCaps (normalizeText s) = none)
    (h3 : rxIsMatch dgRx (fallbackText (normalizeText s)) = false)
    (h4 : fallbackText (normalizeText s) ∉
      (["! Saturna-bound vehicles arriving at the booth at least 15 minutes prior to sailing time are offered priority on this sailing",
        "Foot passengers only",
        "Note: This sailing departs just after midnight",
        "This sailing departs just before midnight",
        "No sailings available on this route for these dates"] : List String)) :
    a.parse_single dr s
      = (a, some (.wrap s (.unrecognized (fallbackText (normalizeText s))))) := by
  simp only [List.mem_cons, List.not_mem_nil, or_false, not_or] at h4
  obtain ⟨n1, n2, n3, n4, n5⟩ := h4
  simp only [Annotations.parse_single, h1, h2, Annotations.fallbackBranch, h3,
    Bool.false_eq_true, if_false, n1, n2, n3, n4, n5, ite_false, Option.map_some]
  rfl

/-- Witness for C7: the spec scenario "Some unrecognized new phrase"
fails with an error naming that exact text. -/
theorem parse_single_unrecognized_witness :
    Annotations.new.parse_single julyRange2021 "Some unrecognized new phrase"
      = (Annotations.new, some (.wrap "Some unrecognized new phrase"
          (.unrecognized "Some unrecognized new phrase"))) := by
  have h := parse_single_unrecognized julyRange2021 "Some unrecognized new phrase"
    Annotations.new (by decide) (by decide) (by decide) (by decide)
  rw [h]
  simp only [Prod.mk.injEq]
  exact ⟨trivial, by decide⟩

end ClaimC7

section KeywordBail

/-- The error values produced by the two defensive keyword `bail!` arms
(the "Expect ..." failures), looking through the outer context wrapper. -/
def PErr.keywordBail : PErr → Prop
  | .expectStar _ => True
  | .expectBlanket _ => True
  | .wrap _ inner => inner.keywordBail
  | _ => False

/-- Whether a `parse_single` result is a defensive keyword bail. -/
def bailedKw : Option PErr → Prop
  | some e => e.keywordBail
  | none => False

/-- Date-list loop errors are never keyword bails. -/
theorem resolveTokens_not_kw_bail (dr : DateRange) (b : DBranch) (n : String)
    (toks : List String) (s : Finset MDate) (t : String) :
    ¬ bailedKw ((resolveTokens dr b n toks s).2.map (.wrap t)) := by
  cases hr : (resolveTokens dr b n toks s).2 with
  | none => simp [bailedKw]
  | some e =>
    obtain ⟨tok, inner, rfl⟩ := resolveTokens_err_shape dr b n toks s e hr
    cases b <;> simp [bailedKw, PErr.keywordBail, dateErr]

end KeywordBail

section ClaimC6

/-- C6 counterexample: the defensive keyword bails are reachable.  The
classifier regexes are case-insensitive while the subsequent `match` arms
compare exact strings, so a keyword spelled in a different case matches
the pattern yet fails the match: "except on: Jul 1" reaches the blanket
bail and "*11:00 PM not available on: Jul 1*" reaches the star bail. -/
theorem keyword_bail_reachable :
    (Annotations.new.parse_single julyRange2021 "except on: Jul 1").2
      = some (.wrap "except on: Jul 1" (.expectBlanket "except")) ∧
    (Annotations.new.parse_single julyRange2021 "*11:00 PM not available on: Jul 1*").2
      = some (.wrap "*11:00 PM not available on: Jul 1*" (.expectStar "not available")) := by
  constructor
  · decide
  · decide

/-- C6 amended: the defensive keyword bails are reachable (for keywords
matching the alternation only case-insensitively), but are never taken
when the captured keyword is exactly one of the canonical spellings of
its alternation — for such inputs `parse_single` never produces an
"Expect ..." failure. -/
theorem parse_single_canonical_keywords (dr : DateRange) (s : String) (a : Annotations) :
    (∀ kw dl, starCaps (normalizeText s) = none →
      blanketCaps (normalizeText s) = some (kw, dl) →
      kw = "Except" ∨ kw = "Not Available" ∨ kw = "Only" ∨ kw = "DG Sailing only" →
      ¬ bailedKw (a.parse_single dr s).2) ∧
    (∀ tt verb dl, starCaps (normalizeText s) = some (tt, verb, dl) →
      verb = "Not Available" ∨ verb = "Only" →
      ¬ bailedKw (a.parse_single dr s).2) := by
  constructor
  · intro kw dl h1 h2 hkw
    simp only [Annotations.parse_single, h1, h2, Annotations.blanketBranch]
    rcases hkw with rfl | rfl | rfl | rfl
    · rw [if_pos (Or.inl rfl)]
      dsimp only
      exact resolveTokens_not_kw_bail _ _ _ _ _ _
    · rw [if_pos (Or.inr rfl)]
      dsimp only
      exact resolveTokens_not_kw_bail _ _ _ _ _ _
    · rw [if_neg (by decide), if_pos rfl]
      dsimp only
      exact resolveTokens_not_kw_bail _ _ _ _ _ _
    · rw [if_neg (by decide), if_neg (by decide), if_pos rfl]
      dsimp only
      exact resolveTokens_not_kw_bail _ _ _ _ _ _
  · intro tt verb dl h1 hverb
    simp only [Annotations.parse_single, h1, Annotations.starBranch]
    cases ht : MTime.parse12 tt with
    | none => simp [bailedKw, PErr.keywordBail]
    | some time =>
      dsimp only
      rcases hverb with rfl | rfl
      · rw [if_pos rfl]
        dsimp only
        exact resolveTokens_not_kw_bail _ _ _ _ _ _
      · rw [if_neg (by decide), if_pos rfl]
        dsimp only
        exact resolveTokens_not_kw_bail _ _ _ _ _ _

/-- Witness for C6's amended statement: a canonically spelled blanket
keyword produces no keyword bail. -/
theorem parse_single_canonical_keywords_witness :
    ¬ bailedKw (Annotations.new.parse_single julyRange2021 "Except: Jul 1, Jul 4").2 :=
  (parse_single_canonical_keywords julyRange2021 "Except: Jul 1, Jul 4"
    Annotations.new).1 "Except" "Jul 1, Jul 4" (by decide) (by decide) (Or.inl rfl)

end ClaimC6

section ClaimC8

/-- General shape of the star branch for the "Not Available" verb: the
entry keyed by the parsed time gains the in-range dates on its `except`
side while every other component of the state is unchanged. -/
theorem parse_single_star_not_available (dr : DateRange) (s : String)
    (a : Annotations) (tt dl : String) (time : MTime)
    (h1 : starCaps (normalizeText s) = some (tt, "Not Available", dl))
    (h2 : MTime.parse12 tt = some time)
    (hok : ∀ tok ∈ splitTrim dl [','], dr.tokenOk tok = true) :
    (a.parse_single dr s).2 = none ∧
    (a.parse_single dr s).1.star_dates_by_time time
      = some ⟨((a.star_dates_by_time time).getD AnnotationDates.new).only,
          ((a.star_dates_by_time time).getD AnnotationDates.new).except
            ∪ goodDates dr (splitTrim dl [','])⟩ ∧
    (∀ t, t ≠ time → (a.parse_single dr s).1.star_dates_by_time t
      = a.star_dates_by_time t) ∧
    (a.parse_single dr s).1.all_dates = a.all_dates ∧
    (a.parse_single dr s).1.dg_dates = a.dg_dates ∧
    (a.parse_single dr s).1.is_dg_only = a.is_dg_only ∧
    (a.parse_single dr s).1.star_dates = a.star_dates ∧
    (a.parse_single dr s).1.all_notes = a.all_notes := by
  simp only [Annotations.parse_single, h1, Annotations.starBranch, h2, if_true]
  rw [resolveTokens_all_ok dr .star (normalizeText s) _ _ hok]
  refine ⟨rfl, by simp, ?_, by simp, by simp, by simp, by simp, by simp⟩
  intro t ht
  simp [ht]

/-- C8: for every `DateRange` resolving the token "Jul 1" (a range
covering July of one year), parsing "*11:00 PM Not Available on: Jul 1*"
from a fresh state succeeds; `star_dates_by_time` gains an entry keyed by
23:00 (11:00 PM) whose `except` set is exactly {Jul 1 of that year} and
whose `only` set is empty, while `all_dates`, `dg_dates` and `is_dg_only`
are unchanged. -/
theorem parse_single_star_scenario (dr : DateRange) (d : MDate)
    (h : dr.parseDateWithin "Jul 1" = .ok (some d)) :
    (Annotations.new.parse_single dr "*11:00 PM Not Available on: Jul 1*").2 = none ∧
    (Annotations.new.parse_single dr
        "*11:00 PM Not Available on: Jul 1*").1.star_dates_by_time ⟨23, 0⟩
      = some ⟨∅, {d}⟩ ∧
    (Annotations.new.parse_single dr
        "*11:00 PM Not Available on: Jul 1*").1.all_dates = AnnotationDates.new ∧
    (Annotations.new.parse_single dr
        "*11:00 PM Not Available on: Jul 1*").1.dg_dates = AnnotationDates.new ∧
    (Annotations.new.parse_single dr
        "*11:00 PM Not Available on: Jul 1*").1.is_dg_only = false := by
  have htok : ∀ tok ∈ splitTrim "Jul 1" [','], dr.tokenOk tok = true := by
    rw [show splitTrim "Jul 1" [','] = ["Jul 1"] from by decide]
    intro tok htok
    rw [List.mem_singleton] at htok
    subst htok
    rw [DateRange.tokenOk, h]
  have hna := parse_single_star_not_available dr "*11:00 PM Not Available on: Jul 1*"
    Annotations.new "11:00 PM" "Jul 1" ⟨23, 0⟩ (by decide) (by decide) htok
  refine ⟨hna.1, ?_, hna.2.2.2.1, hna.2.2.2.2.1, hna.2.2.2.2.2.1⟩
  rw [hna.2.1]
  have hgood : goodDates dr (splitTrim "Jul 1" [',']) = {d} := by
    rw [show splitTrim "Jul 1" [','] = ["Jul 1"] from by decide]
    simp [goodDates, h]
  rw [hgood]
  rfl

/-- Witness for C8 against the concrete July 2021 range. -/
theorem parse_single_star_scenario_witness :
    (Annotations.new.parse_single julyRange2021
        "*11:00 PM Not Available on: Jul 1*").2 = none ∧
    (Annotations.new.parse_single julyRange2021
        "*11:00 PM Not Available on: Jul 1*").1.star_dates_by_time ⟨23, 0⟩
      = some ⟨∅, {⟨2021, 7, 1⟩}⟩ :=
  ⟨(parse_single_star_scenario julyRange2021 ⟨2021, 7, 1⟩ rfl).1,
    (parse_single_star_scenario julyRange2021 ⟨2021, 7, 1⟩ rfl).2.1⟩

end ClaimC8

section ClaimC4

/-- A successful compound split yields two strictly shorter pieces. -/
theorem splitCompound_shorter {t c1 c4 : String}
    (h : splitCompound t = some (c1, c4)) :
    c1.length < t.length ∧ c4.length < t.length := by
  simp only [splitCompound] at h
  cases hc : compoundCapsRaw t with
  | none => rw [hc] at h; exact absurd h (by simp)
  | some p =>
    obtain ⟨x, y⟩ := p
    rw [hc] at h
    dsimp only at h
    by_cases hl : x.length + y.length < t.length
    · rw [if_pos hl] at h
      simp only [Option.some_inj, Prod.mk.injEq] at h
      obtain ⟨rfl, rfl⟩ := h
      omega
    · rw [if_neg hl] at h
      exact absurd h (by simp)

/-- `parseOne` does not depend on its fuel, as long as the fuel exceeds
the string length (each compound split yields strictly shorter pieces). -/
theorem parseOne_fuel (dr : DateRange) :
    ∀ (f1 f2 : Nat) (t : String) (a : Annotations),
      t.length < f1 → t.length < f2 →
      Annotations.parseOne dr f1 t a = Annotations.parseOne dr f2 t a := by
  intro f1
  induction f1 with
  | zero => intro f2 t a h1 _; exact absurd h1 (by omega)
  | succ g1 ih =>
    intro f2 t a h1 h2
    cases f2 with
    | zero => exact absurd h2 (by omega)
    | succ g2 =>
      simp only [Annotations.parseOne]
      cases hc : splitCompound t with
      | none => rfl
      | some p =>
        obtain ⟨c1, c4⟩ := p
        obtain ⟨hl1, hl4⟩ := splitCompound_shorter hc
        dsimp only
        rw [ih g2 c1 a (by omega) (by omega)]
        cases hr : (Annotations.parseOne dr g2 c1 a).2 with
        | some e => rfl
        | none =>
          exact ih g2 c4 (Annotations.parseOne dr g2 c1 a).1 (by omega) (by omega)

/-- `parse` on a one-element list is `parseOne` at the standard fuel. -/
theorem parse_one_elem (a : Annotations) (dr : DateRange) (t : String) :
    a.parse dr [t] = Annotations.parseOne dr (t.length + 1) t a := by
  simp only [Annotations.parse]
  cases hr : (Annotations.parseOne dr (t.length + 1) t a).2 with
  | some e => exact Prod.ext rfl hr.symm
  | none => exact Prod.ext rfl hr.symm

/-- C4 counterexample: with a July 2021 range, parsing the compound
string "Except Jul 1 ! Foot passengers only" fails (the extracted second
piece keeps its "! " marker and is not a recognized phrase), while
parsing the two strings "Except Jul 1" and "Foot passengers only"
separately succeeds and records the note — the two parses do not produce
the same `Annotations` state or result. -/
theorem parse_compound_scenario_differs :
    (Annotations.new.parse julyRange2021 ["Except Jul 1 ! Foot passengers only"]).2
      = some (.wrap "! Foot passengers only" (.unrecognized "! Foot passengers only")) ∧
    (Annotations.new.parse julyRange2021 ["Except Jul 1", "Foot passengers only"]).2
      = none ∧
    ((Annotations.new.parse julyRange2021
        ["Except Jul 1", "Foot passengers only"]).1.all_notes.map
        "Foot passengers only").isSome = true ∧
    ((Annotations.new.parse julyRange2021
        ["Except Jul 1 ! Foot passengers only"]).1.all_notes.map
        "Foot passengers only").isSome = false := by
  refine ⟨by decide, by decide, by decide, by decide⟩

/-- C4 amended: the compound string is parsed exactly as its two
extracted pieces — with the embedded note keeping its "! " marker:
parsing "Except Jul 1 ! Foot passengers only" equals parsing
["Except Jul 1", "! Foot passengers only"], from any state and against
any range (and the result is an error, since "! Foot passengers only" is
not a recognized phrase). -/
theorem parseOne_split (dr : DateRange) (f : Nat) (t : String) (a : Annotations)
    (c1 c4 : String) (h : splitCompound t = some (c1, c4)) :
    Annotations.parseOne dr (f + 1) t a
      = match (Annotations.parseOne dr f c1 a).2 with
        | some e => ((Annotations.parseOne dr f c1 a).1, some e)
        | none => Annotations.parseOne dr f c4 (Annotations.parseOne dr f c1 a).1 := by
  simp only [Annotations.parseOne, h]

/-- One unfolding step of `parse` on a non-empty list. -/
theorem parse_cons (a : Annotations) (dr : DateRange) (t : String)
    (rest : List String) :
    a.parse dr (t :: rest)
      = match (Annotations.parseOne dr (t.length + 1) t a).2 with
        | some e => ((Annotations.parseOne dr (t.length + 1) t a).1, some e)
        | none => (Annotations.parseOne dr (t.length + 1) t a).1.parse dr rest :=
  rfl

theorem parse_compound_eq_pieces (a : Annotations) (dr : DateRange) :
    a.parse dr ["Except Jul 1 ! Foot passengers only"]
      = a.parse dr ["Except Jul 1", "! Foot passengers only"] := by
  have hsplit : splitCompound "Except Jul 1 ! Foot passengers only"
      = some ("Except Jul 1", "! Foot passengers only") := by decide
  rw [parse_one_elem,
    parseOne_split dr "Except Jul 1 ! Foot passengers only".length
      "Except Jul 1 ! Foot passengers only" a "Except Jul 1"
      "! Foot passengers only" hsplit,
    parseOne_fuel dr "Except Jul 1 ! Foot passengers only".length
      ("Except Jul 1".length + 1) "Except Jul 1" a (by decide) (by decide),
    parse_cons]
  cases hr : (Annotations.parseOne dr ("Except Jul 1".length + 1)
      "Except Jul 1" a).2 with
  | some e => rfl
  | none =>
    dsimp only
    rw [parse_one_elem]
    exact parseOne_fuel dr "Except Jul 1 ! Foot passengers only".length
      ("! Foot passengers only".length + 1) "! Foot passengers only" _
      (by decide) (by decide)

end ClaimC4
